import Mathlib

/-!
Shallow embedding of the folder-analysis tool's core
(`src/config_manager.py` and `src/folder_analyzer.py`):

* the filter policy `ConfigManager.should_include_file` /
  `ConfigManager.should_include_file_contents`,
* the tree renderer `print_tree_structure` (inner closure
  `_print_directory_contents`) with its console/file sinks,
* the string-returning renderer `get_folder_structure_as_string`
  (inner closure `_capture_directory_contents`),
* the content-collection pass `collect_file_contents` and the
  content section appended by `analyze_folder`.

A filesystem is modelled as a tree of named entries; a directory whose
listing call would raise `PermissionError` carries `none` as its listing.
Python strings are modelled through `String.data` (lists of chars); the
string helpers below are structural re-implementations of the Python
string operations used by the source (`startswith`, `endswith`, `in`,
`str.lower`, `Path.suffix`, lexicographic comparison by code point), so
that every definition evaluates by kernel reduction.
-/

/-- Python `pre + rest == s` test used for `str.startswith`:
`listPrefixB p l` is true iff `p` is a prefix of `l`. -/
def listPrefixB : List Char → List Char → Bool
  | [], _ => true
  | _ :: _, [] => false
  | a :: as, b :: bs => a == b && listPrefixB as bs

/-- Python `s.startswith(pre)`. -/
def strStarts (s pre : String) : Bool :=
  listPrefixB pre.data s.data

/-- Python `s.endswith(suf)`. -/
def strEnds (s suf : String) : Bool :=
  listPrefixB suf.data.reverse s.data.reverse

/-- Helper for Python's substring test `pat in s`. -/
def hasSubAux (pat : List Char) : List Char → Bool
  | [] => pat.isEmpty
  | c :: cs => listPrefixB pat (c :: cs) || hasSubAux pat cs

/-- Python `pat in s` (substring containment). -/
def strContains (s pat : String) : Bool :=
  hasSubAux pat.data s.data

/-- Python `s.lower()` as a list of chars (ASCII case folding). -/
def lowerChars (s : String) : List Char :=
  s.data.map Char.toLower

/-- Python `s.lower()`. -/
def strLower (s : String) : String :=
  String.mk (lowerChars s)

/-- Lexicographic `≤` on char lists by code point: Python string
comparison applied to the (lowered) names in the sort key. -/
def charsLE : List Char → List Char → Bool
  | [], _ => true
  | _ :: _, [] => false
  | a :: as, b :: bs => if a = b then charsLE as bs else decide (a < b)

/-- CPython `PurePath.suffix` of a final path component: the part from the
last dot on, empty when the dot is absent, first, or last in the name. -/
def pathSuffix (name : String) : String :=
  let sp := name.data.reverse.span (fun c => c != '.')
  match sp.2 with
  | [] => ""
  | _ :: before =>
    if sp.1.isEmpty || before.isEmpty then ""
    else String.mk ('.' :: sp.1.reverse)

/-- The configuration keys consulted by the core
(`ConfigManager.DEFAULT_CONFIG` holds the defaults). -/
structure Config where
  include_hidden_files : Bool
  include_pycache : Bool
  include_file_contents : List String

/-- `ConfigManager.DEFAULT_CONFIG`: hidden files and `__pycache__`
artifacts excluded, no content-embedding extensions. -/
def defaultConfig : Config :=
  { include_hidden_files := false
    include_pycache := false
    include_file_contents := [] }

/-- `ConfigManager.should_include_file` (config_manager.py lines 109-134).
`full` models `str(file_path)`, `name` models `file_path.name`. -/
def should_include_file (cfg : Config) (full name : String) : Bool :=
  if strStarts name "." && !cfg.include_hidden_files then false
  else if !cfg.include_pycache &&
      (name == "__pycache__" || strEnds name ".pyc" || strEnds name ".pyo" ||
        strContains full "__pycache__") then false
  else true

/-- `ConfigManager.should_include_file_contents` (config_manager.py
lines 136-151): `file_path.suffix.lower() in extensions`, with an empty
extension list rejecting everything. -/
def should_include_file_contents (cfg : Config) (name : String) : Bool :=
  if cfg.include_file_contents.isEmpty then false
  else cfg.include_file_contents.contains (strLower (pathSuffix name))

/-- Outcome of `open(file).read()` on one file: success, a
`UnicodeDecodeError`, a `PermissionError`, or any other exception
(`msg` models `str(e)`). -/
inductive ReadResult where
  | ok (content : String)
  | decodeErr (msg : String)
  | permissionErr (msg : String)
  | otherErr (msg : String)

/-- A filesystem node. A directory whose `iterdir()` raises
`PermissionError` carries `none` as its listing. -/
inductive FSTree where
  | file (name : String) (read : ReadResult)
  | dir (name : String) (listing : Option (List FSTree))

def FSTree.name : FSTree → String
  | .file n _ => n
  | .dir n _ => n

/-- `Path.is_file()` for a listed entry. -/
def FSTree.isFile : FSTree → Bool
  | .file _ _ => true
  | .dir _ _ => false

/-- The sort key `(x.is_file(), x.name.lower())` of
folder_analyzer.py line 35 / line 212. -/
def sortKey (t : FSTree) : Bool × List Char :=
  (t.isFile, lowerChars t.name)

/-- Python's `<=` on the composite sort key `(is_file, name.lower())`:
directories (`False`) before files (`True`), then the lowered name
lexicographically. -/
def keyLE (a b : FSTree) : Bool :=
  (!a.isFile && b.isFile) ||
    ((a.isFile == b.isFile) && charsLE (lowerChars a.name) (lowerChars b.name))

/-- Stable insertion: place `x` before the first element `y` with
`le x y`.  Folding this over a list is extensionally the stable sort
that Python's `sorted` performs. -/
def insortBy {α : Type} (le : α → α → Bool) (x : α) : List α → List α
  | [] => [x]
  | y :: ys => if le x y then x :: y :: ys else y :: insortBy le x ys

/-- Stable sort by `le`; models `sorted(..., key=...)` of
folder_analyzer.py lines 34-35 / 211-212 (Python's sort is stable; a
stable sort's output is determined extensionally, so insertion sort is
an exact model). -/
def isortBy {α : Type} (le : α → α → Bool) : List α → List α
  | [] => []
  | x :: xs => insortBy le x (isortBy le xs)

/-- The filter applied inside the list comprehension on line 34 / 211:
`config_manager.should_include_file(item)` where `item` is
`dir_path / item.name`. -/
def includeEntry (cfg : Config) (dirPath : String) (t : FSTree) : Bool :=
  should_include_file cfg (dirPath ++ "/" ++ t.name) t.name

/-- `sorted([item for item in dir_path.iterdir() if
config_manager.should_include_file(item)], key=lambda x: (x.is_file(),
x.name.lower()))` (folder_analyzer.py lines 34-35 and 211-212). -/
def sortedChildren (cfg : Config) (dirPath : String) (items : List FSTree) : List FSTree :=
  isortBy keyLE (items.filter (includeEntry cfg dirPath))

/-- `insortBy` adds exactly the size of the inserted element. -/
def sizeOf_insortBy {α : Type} [SizeOf α] (le : α → α → Bool) (x : α) :
    ∀ l : List α, sizeOf (insortBy le x l) = 1 + sizeOf x + sizeOf l := by
  intro l
  induction l with
  | nil => simp [insortBy]
  | cons y ys ih =>
    simp only [insortBy]
    split
    · simp only [List.cons.sizeOf_spec]
    · simp only [List.cons.sizeOf_spec, ih]
      omega

/-- Sorting preserves the size of a list. -/
def sizeOf_isortBy {α : Type} [SizeOf α] (le : α → α → Bool) :
    ∀ l : List α, sizeOf (isortBy le l) = sizeOf l := by
  intro l
  induction l with
  | nil => simp [isortBy]
  | cons x xs ih =>
    simp only [isortBy, sizeOf_insortBy, ih, List.cons.sizeOf_spec]

/-- Filtering does not increase the size of a list. -/
def sizeOf_filter_le {α : Type} [SizeOf α] (p : α → Bool) :
    ∀ l : List α, sizeOf (l.filter p) ≤ sizeOf l := by
  intro l
  induction l with
  | nil => simp
  | cons x xs ih =>
    simp only [List.filter]
    split
    · simp only [List.cons.sizeOf_spec]
      omega
    · simp only [List.cons.sizeOf_spec]
      omega

mutual

/-- Body of `_print_directory_contents(dir_path, current_prefix)`
(folder_analyzer.py lines 30-63), as the list of lines it emits (each
line is both printed and, when an output file is given, written to it).
`dirPath` is `str(dir_path)`, `pfx` is `current_prefix`, and the
argument is the directory's listing (`none` models `iterdir()` raising
`PermissionError`, lines 36-41). -/
def print_directory_contents (cfg : Config) (dirPath pfx : String) :
    Option (List FSTree) → List String
  | none => [pfx ++ "├── [Permission Denied]"]
  | some items => print_items cfg dirPath pfx (sortedChildren cfg dirPath items)
termination_by o => sizeOf o
decreasing_by
  simp only [sortedChildren, Option.some.sizeOf_spec]
  have h1 := sizeOf_isortBy keyLE (items.filter (includeEntry cfg dirPath))
  have h2 := sizeOf_filter_le (includeEntry cfg dirPath) items
  omega

/-- The `for i, item in enumerate(items)` loop of lines 43-63:
`is_last = i == len(items) - 1` holds exactly for the final element. -/
def print_items (cfg : Config) (dirPath pfx : String) : List FSTree → List String
  | [] => []
  | [t] => print_item cfg dirPath pfx t true
  | t :: u :: rest =>
    print_item cfg dirPath pfx t false ++ print_items cfg dirPath pfx (u :: rest)
termination_by l => sizeOf l
decreasing_by
  all_goals simp only [List.cons.sizeOf_spec, List.nil.sizeOf_spec]
  all_goals omega

/-- One iteration of the loop (lines 46-63): emit
`<prefix><connector><name>` (directories get a trailing `/`), and for a
directory recurse with the prefix extended by four spaces when last,
else by the continuation glyph. -/
def print_item (cfg : Config) (dirPath pfx : String) (t : FSTree) (isLast : Bool) :
    List String :=
  match t with
  | .file name _ => [pfx ++ (if isLast then "└── " else "├── ") ++ name]
  | .dir name listing =>
    (pfx ++ (if isLast then "└── " else "├── ") ++ name ++ "/") ::
      print_directory_contents cfg (dirPath ++ "/" ++ name)
        (pfx ++ (if isLast then "    " else "│   ")) listing
termination_by sizeOf t
decreasing_by
  simp only [FSTree.dir.sizeOf_spec]
  omega

end

mutual

/-- Body of `_capture_directory_contents(dir_path, current_prefix)`
(folder_analyzer.py lines 207-231), the string-buffer twin of
`_print_directory_contents`, as the list of lines written to the
buffer. -/
def capture_directory_contents (cfg : Config) (dirPath pfx : String) :
    Option (List FSTree) → List String
  | none => [pfx ++ "├── [Permission Denied]"]
  | some items => capture_items cfg dirPath pfx (sortedChildren cfg dirPath items)
termination_by o => sizeOf o
decreasing_by
  simp only [sortedChildren, Option.some.sizeOf_spec]
  have h1 := sizeOf_isortBy keyLE (items.filter (includeEntry cfg dirPath))
  have h2 := sizeOf_filter_le (includeEntry cfg dirPath) items
  omega

/-- The `for i, item in enumerate(items)` loop of lines 217-231. -/
def capture_items (cfg : Config) (dirPath pfx : String) : List FSTree → List String
  | [] => []
  | [t] => capture_item cfg dirPath pfx t true
  | t :: u :: rest =>
    capture_item cfg dirPath pfx t false ++ capture_items cfg dirPath pfx (u :: rest)
termination_by l => sizeOf l
decreasing_by
  all_goals simp only [List.cons.sizeOf_spec, List.nil.sizeOf_spec]
  all_goals omega

/-- One iteration of the loop (lines 220-231). -/
def capture_item (cfg : Config) (dirPath pfx : String) (t : FSTree) (isLast : Bool) :
    List String :=
  match t with
  | .file name _ => [pfx ++ (if isLast then "└── " else "├── ") ++ name]
  | .dir name listing =>
    (pfx ++ (if isLast then "└── " else "├── ") ++ name ++ "/") ::
      capture_directory_contents cfg (dirPath ++ "/" ++ name)
        (pfx ++ (if isLast then "    " else "│   ")) listing
termination_by sizeOf t
decreasing_by
  simp only [FSTree.dir.sizeOf_spec]
  omega

end

/-- What the root path refers to: nothing (`not folder_path.exists()`),
a non-directory (`not folder_path.is_dir()`), or a directory with name
`Path(target).name` and a listing. -/
inductive RootState where
  | missing
  | notDir
  | dir (name : String) (listing : Option (List FSTree))

/-- The two sinks of `print_tree_structure`: lines printed to the
console and lines written to the output file. -/
structure RenderOut where
  console : List String
  file : List String

/-- `print_tree_structure(folder_path, prefix, output_file, config_manager)`
(folder_analyzer.py lines 6-72).  `hasFile` is whether an `output_file`
was supplied.  The "does not exist" / "is not a directory" diagnostics
(lines 18-24) go through `print` only — they are never written to
`output_file`; every tree line is printed and, when `hasFile`, also
written. -/
def print_tree_structure (cfg : Config) (target : String) (root : RootState)
    (pfx : String) (hasFile : Bool) : RenderOut :=
  match root with
  | .missing =>
    { console := ["Error: The path '" ++ target ++ "' does not exist."], file := [] }
  | .notDir =>
    { console := ["Error: The path '" ++ target ++ "' is not a directory."], file := [] }
  | .dir name listing =>
    let lines := (pfx ++ name ++ "/") :: print_directory_contents cfg target pfx listing
    { console := lines, file := if hasFile then lines else [] }

/-- `get_folder_structure_as_string(target_folder, config_manager)`
(folder_analyzer.py lines 188-256), as the list of lines written to the
string buffer. -/
def get_folder_structure_as_string (cfg : Config) (target : String)
    (root : RootState) : List String :=
  match root with
  | .missing => ["Error: The path '" ++ target ++ "' does not exist."]
  | .notDir => ["Error: The path '" ++ target ++ "' is not a directory."]
  | .dir name listing =>
    (name ++ "/") :: capture_directory_contents cfg target "" listing

/-- The kind of a path yielded by `folder_path.rglob("*")`: a file
(with the outcome of reading it) or a directory. -/
inductive WalkKind where
  | fileK (r : ReadResult)
  | dirK

/-- One path yielded by `folder_path.rglob("*")`: `full` models
`str(file_path)`, `rel` models `str(file_path.relative_to(folder_path))`,
`name` models `file_path.name`. -/
structure WalkEntry where
  full : String
  rel : String
  name : String
  kind : WalkKind

/-- The string recorded for one file by `collect_file_contents`
(folder_analyzer.py lines 91-107): the text on success, else the
placeholder produced by the matching `except` clause. -/
def readOutput : ReadResult → String
  | .ok c => c
  | .decodeErr m => "[Could not read file: " ++ m ++ "]"
  | .permissionErr m => "[Could not read file: " ++ m ++ "]"
  | .otherErr m => "[Error reading file: " ++ m ++ "]"

/-- One iteration of the `for file_path in folder_path.rglob("*")` loop
(lines 89-107): a file passing both filters contributes one
`(relative_path, content-or-placeholder)` record; everything else
contributes nothing.  Total — the per-file `try` blocks absorb every
read failure. -/
def processEntry (cfg : Config) (e : WalkEntry) : List (String × String) :=
  match e.kind with
  | .dirK => []
  | .fileK r =>
    if should_include_file cfg e.full e.name &&
        should_include_file_contents cfg e.name then
      [(e.rel, readOutput r)]
    else []

/-- Relative-path join (`Path.relative_to` composed with `/`). -/
def relJoin (rel name : String) : String :=
  if rel = "" then name else rel ++ "/" ++ name

mutual

/-- The paths `folder_path.rglob("*")` yields for one subtree, in
pre-order: the entry itself, then (for a listable directory) its
descendants.  A permission-denied directory is yielded but not
descended into (pathlib suppresses the error during globbing). -/
def rglobEntries (full rel : String) : FSTree → List WalkEntry
  | .file name r => [⟨full ++ "/" ++ name, relJoin rel name, name, .fileK r⟩]
  | .dir name none => [⟨full ++ "/" ++ name, relJoin rel name, name, .dirK⟩]
  | .dir name (some cs) =>
    ⟨full ++ "/" ++ name, relJoin rel name, name, .dirK⟩ ::
      rglobList (full ++ "/" ++ name) (relJoin rel name) cs

/-- `rglobEntries` over a listing, in listing order. -/
def rglobList (full rel : String) : List FSTree → List WalkEntry
  | [] => []
  | t :: ts => rglobEntries full rel t ++ rglobList full rel ts

end

/-- `collect_file_contents(folder_path, config_manager)`
(folder_analyzer.py lines 74-112).  `yielded` is the sequence of paths
the `rglob` iterator produced before terminating; `iterErr = some e`
models the iterator itself raising an exception with `str(e) = e`
mid-collection, which the outer `except` turns into a single printed
warning.  Returns (records, warnings); the function itself never
raises. -/
def collect_file_contents (cfg : Config) (yielded : List WalkEntry)
    (iterErr : Option String) : List (String × String) × List String :=
  (yielded.flatMap (processEntry cfg),
   match iterErr with
   | none => []
   | some e => ["Warning: Error collecting file contents: " ++ e])

/-- A full, failure-free collection pass over a root directory's
listing. -/
def collectFromTree (cfg : Config) (target : String) (items : List FSTree) :
    List (String × String) :=
  (collect_file_contents cfg (rglobList target "" items) none).1

/-- `"=" * 60` (folder_analyzer.py line 168). -/
def eqBanner : String := String.mk (List.replicate 60 '=')

/-- `"-" * 40` (folder_analyzer.py line 174). -/
def dashSep : String := String.mk (List.replicate 40 '-')

/-- The text written for one content record (folder_analyzer.py lines
172-178): path label, separator, the content with a newline appended
when missing, trailing separator and blank line. -/
def formatRecord (rec : String × String) : String :=
  rec.1 ++ " contents:\n" ++ dashSep ++ "\n" ++ rec.2 ++
    (if strEnds rec.2 "\n" then "" else "\n") ++ dashSep ++ "\n\n"

/-- The banner and records appended to the output file when any records
were collected (folder_analyzer.py lines 167-178). -/
def contentsSection (records : List (String × String)) : String :=
  if records.isEmpty then ""
  else
    "\n" ++ eqBanner ++ "\n" ++ "FILE CONTENTS\n" ++ eqBanner ++ "\n\n" ++
      String.join (records.map formatRecord)

/-- The file-contents part of `analyze_folder` (folder_analyzer.py lines
164-178): guarded by `include_file_contents` being non-empty (Python
truthiness of the list), then the section for the collected records. -/
def analyzeFileContentsOutput (cfg : Config) (target : String)
    (items : List FSTree) : String :=
  if cfg.include_file_contents.isEmpty then ""
  else contentsSection (collectFromTree cfg target items)

/-! ### Order properties of the sort key comparison -/

theorem charsLE_total : ∀ l1 l2 : List Char, charsLE l1 l2 = true ∨ charsLE l2 l1 = true := by
  intro l1
  induction l1 with
  | nil => intro l2; left; rfl
  | cons a as ih =>
    intro l2
    cases l2 with
    | nil => right; rfl
    | cons b bs =>
      by_cases hab : a = b
      · subst hab
        rcases ih bs with h | h
        · left; simpa [charsLE] using h
        · right; simpa [charsLE] using h
      · have hba : ¬ b = a := fun h => hab h.symm
        rcases lt_trichotomy a b with h | h | h
        · left; simp [charsLE, hab, h]
        · exact absurd h hab
        · right; simp [charsLE, hba, h]

theorem charsLE_trans : ∀ l1 l2 l3 : List Char,
    charsLE l1 l2 = true → charsLE l2 l3 = true → charsLE l1 l3 = true := by
  intro l1
  induction l1 with
  | nil => intro l2 l3 _ _; rfl
  | cons a as ih =>
    intro l2 l3 h12 h23
    cases l2 with
    | nil => simp [charsLE] at h12
    | cons b bs =>
      cases l3 with
      | nil => simp [charsLE] at h23
      | cons c cs =>
        by_cases hab : a = b
        · subst hab
          by_cases hac : a = c
          · subst hac
            simp only [charsLE, if_pos rfl] at h12 h23 ⊢
            exact ih bs cs h12 h23
          · simp only [charsLE, if_neg hac] at h23 ⊢
            exact h23
        · simp only [charsLE, if_neg hab, decide_eq_true_eq] at h12
          by_cases hbc : b = c
          · subst hbc
            simp only [charsLE, if_neg hab, decide_eq_true_eq]
            exact h12
          · simp only [charsLE, if_neg hbc, decide_eq_true_eq] at h23
            have hac : a < c := lt_trans h12 h23
            simp only [charsLE, if_neg (ne_of_lt hac), decide_eq_true_eq]
            exact hac

theorem charsLE_antisymm : ∀ l1 l2 : List Char,
    charsLE l1 l2 = true → charsLE l2 l1 = true → l1 = l2 := by
  intro l1
  induction l1 with
  | nil =>
    intro l2 _ h21
    cases l2 with
    | nil => rfl
    | cons b bs => simp [charsLE] at h21
  | cons a as ih =>
    intro l2 h12 h21
    cases l2 with
    | nil => simp [charsLE] at h12
    | cons b bs =>
      by_cases hab : a = b
      · subst hab
        simp only [charsLE, if_pos rfl] at h12 h21
        rw [ih bs h12 h21]
      · have hba : ¬ b = a := fun h => hab h.symm
        simp only [charsLE, if_neg hab, decide_eq_true_eq] at h12
        simp only [charsLE, if_neg hba, decide_eq_true_eq] at h21
        exact absurd h21 (lt_asymm h12)

theorem keyLE_total : ∀ a b : FSTree, keyLE a b = true ∨ keyLE b a = true := by
  intro a b
  cases ha : a.isFile <;> cases hb : b.isFile <;>
    simp [keyLE, ha, hb] <;> exact charsLE_total _ _

theorem keyLE_trans : ∀ a b c : FSTree,
    keyLE a b = true → keyLE b c = true → keyLE a c = true := by
  intro a b c hab hbc
  cases ha : a.isFile <;> cases hb : b.isFile <;> cases hc : c.isFile <;>
    rw [keyLE, ha, hb] at hab <;> rw [keyLE, hb, hc] at hbc <;>
    rw [keyLE, ha, hc] <;> simp at hab hbc ⊢ <;>
    exact charsLE_trans _ _ _ hab hbc

theorem keyLE_antisymm_key : ∀ a b : FSTree,
    keyLE a b = true → keyLE b a = true → sortKey a = sortKey b := by
  intro a b hab hba
  cases ha : a.isFile <;> cases hb : b.isFile <;>
    rw [keyLE, ha, hb] at hab <;> rw [keyLE, hb, ha] at hba <;>
    simp only [sortKey, ha, hb, Prod.mk.injEq] <;> simp at hab hba ⊢ <;>
    exact charsLE_antisymm _ _ hab hba

/-! ### The stable sort: permutation, sortedness, uniqueness -/

theorem insortBy_perm {α : Type} (le : α → α → Bool) (x : α) :
    ∀ l : List α, (insortBy le x l).Perm (x :: l) := by
  intro l
  induction l with
  | nil => simp only [insortBy]; exact List.Perm.refl _
  | cons y ys ih =>
    simp only [insortBy]
    split
    · exact List.Perm.refl _
    · exact (ih.cons y).trans (List.Perm.swap x y ys)

theorem isortBy_perm {α : Type} (le : α → α → Bool) :
    ∀ l : List α, (isortBy le l).Perm l := by
  intro l
  induction l with
  | nil => exact List.Perm.refl _
  | cons x xs ih =>
    simp only [isortBy]
    exact (insortBy_perm le x _).trans (ih.cons x)

theorem mem_isortBy {α : Type} {le : α → α → Bool} {a : α} {l : List α} :
    a ∈ isortBy le l ↔ a ∈ l :=
  (isortBy_perm le l).mem_iff

theorem insortBy_pairwise {α : Type} {le : α → α → Bool}
    (htot : ∀ a b, le a b = true ∨ le b a = true)
    (htr : ∀ a b c, le a b = true → le b c = true → le a c = true) (x : α) :
    ∀ l : List α, l.Pairwise (fun a b => le a b = true) →
      (insortBy le x l).Pairwise (fun a b => le a b = true) := by
  intro l
  induction l with
  | nil => intro _; simp [insortBy]
  | cons y ys ih =>
    intro hp
    rcases List.pairwise_cons.mp hp with ⟨hy, hys⟩
    simp only [insortBy]
    split
    · rename_i hxy
      refine List.pairwise_cons.mpr ⟨?_, hp⟩
      intro z hz
      cases List.mem_cons.mp hz with
      | inl h => subst h; exact hxy
      | inr h => exact htr x y z hxy (hy z h)
    · rename_i hxy
      have hyx : le y x = true := (htot x y).resolve_left hxy
      refine List.pairwise_cons.mpr ⟨?_, ih hys⟩
      intro z hz
      cases List.mem_cons.mp ((insortBy_perm le x ys).mem_iff.mp hz) with
      | inl h => subst h; exact hyx
      | inr h => exact hy z h

theorem isortBy_pairwise {α : Type} {le : α → α → Bool}
    (htot : ∀ a b, le a b = true ∨ le b a = true)
    (htr : ∀ a b c, le a b = true → le b c = true → le a c = true) :
    ∀ l : List α, (isortBy le l).Pairwise (fun a b => le a b = true) := by
  intro l
  induction l with
  | nil => simp [isortBy]
  | cons x xs ih =>
    simp only [isortBy]
    exact insortBy_pairwise htot htr x _ ih

/-- Two lists that are permutations of one another and have pairwise
distinct sort keys have equal stable sorts: the rendered order does not
depend on the order of the underlying listing. -/
theorem isortBy_keyLE_eq_of_perm {l1 l2 : List FSTree} (hp : l1.Perm l2)
    (hd : l1.Pairwise fun a b => sortKey a ≠ sortKey b) :
    isortBy keyLE l1 = isortBy keyLE l2 := by
  have hs1 := isortBy_pairwise keyLE_total keyLE_trans l1
  have hs2 := isortBy_pairwise keyLE_total keyLE_trans l2
  have hp1 : (isortBy keyLE l1).Perm l1 := isortBy_perm keyLE l1
  have hp2 : (isortBy keyLE l2).Perm l2 := isortBy_perm keyLE l2
  have hd1 : (isortBy keyLE l1).Pairwise fun a b => sortKey a ≠ sortKey b :=
    (hp1.pairwise_iff fun h => Ne.symm h).mpr hd
  have hd2 : (isortBy keyLE l2).Pairwise fun a b => sortKey a ≠ sortKey b :=
    (hp2.pairwise_iff fun h => Ne.symm h).mpr ((hp.pairwise_iff fun h => Ne.symm h).mp hd)
  have hperm : (isortBy keyLE l1).Perm (isortBy keyLE l2) :=
    hp1.trans (hp.trans hp2.symm)
  haveI : IsAntisymm FSTree (fun a b => keyLE a b = true ∧ sortKey a ≠ sortKey b) :=
    ⟨fun a b h1 h2 => absurd (keyLE_antisymm_key a b h1.1 h2.1) h1.2⟩
  exact List.eq_of_perm_of_sorted hperm (hs1.and hd1) (hs2.and hd2)

/-! ### Structural facts about the renderers and the walk -/

/-- The loop of `_print_directory_contents` decomposes: every child but
the final one is emitted with `is_last = False`, the final one with
`is_last = True`. -/
theorem print_items_append_last (cfg : Config) (dirPath pfx : String) :
    ∀ (init : List FSTree) (t : FSTree),
      print_items cfg dirPath pfx (init ++ [t])
        = init.flatMap (fun u => print_item cfg dirPath pfx u false)
            ++ print_item cfg dirPath pfx t true := by
  intro init
  induction init with
  | nil => intro t; simp [print_items]
  | cons x init' ih =>
    intro t
    cases init' with
    | nil => simp [print_items]
    | cons y ys =>
      have := ih t
      simp only [List.cons_append, print_items, List.flatMap_cons] at this ⊢
      rw [this]
      simp [List.append_assoc]

theorem rglobList_append (full rel : String) :
    ∀ l1 l2 : List FSTree,
      rglobList full rel (l1 ++ l2) = rglobList full rel l1 ++ rglobList full rel l2 := by
  intro l1 l2
  induction l1 with
  | nil => simp [rglobList]
  | cons t ts ih => simp [rglobList, ih]

/-- If the two line-emitting loop bodies agree on every member of a
list, the loops agree on the list. -/
theorem capture_items_congr (cfg : Config) (dirPath pfx : String) :
    ∀ l : List FSTree,
      (∀ x ∈ l, ∀ isLast : Bool,
        capture_item cfg dirPath pfx x isLast = print_item cfg dirPath pfx x isLast) →
      capture_items cfg dirPath pfx l = print_items cfg dirPath pfx l := by
  intro l
  induction l with
  | nil => intro _; simp [capture_items, print_items]
  | cons x xs ih =>
    intro h
    cases xs with
    | nil =>
      simp only [capture_items, print_items]
      exact h x (List.mem_cons_self x []) true
    | cons y ys =>
      simp only [capture_items, print_items]
      rw [h x (List.mem_cons_self x (y :: ys)) false,
        ih (fun z hz isLast => h z (List.mem_cons_of_mem x hz) isLast)]

/-- `_capture_directory_contents` and `_print_directory_contents` emit
identical lines for one entry (strong induction on the subtree size). -/
theorem capture_item_eq_print :
    ∀ (n : Nat) (t : FSTree), sizeOf t ≤ n →
      ∀ (cfg : Config) (dirPath pfx : String) (isLast : Bool),
        capture_item cfg dirPath pfx t isLast = print_item cfg dirPath pfx t isLast := by
  intro n
  induction n with
  | zero =>
    intro t ht
    cases t with
    | file nm r => simp only [FSTree.file.sizeOf_spec] at ht; omega
    | dir nm lst => simp only [FSTree.dir.sizeOf_spec] at ht; omega
  | succ n ih =>
    intro t ht cfg dirPath pfx isLast
    cases t with
    | file nm r => simp [capture_item, print_item]
    | dir nm lst =>
      cases lst with
      | none =>
        simp [capture_item, print_item, capture_directory_contents,
          print_directory_contents]
      | some cs =>
        simp only [capture_item, print_item, capture_directory_contents,
          print_directory_contents]
        congr 1
        apply capture_items_congr
        intro x hx isL
        have hx' : x ∈ cs := by
          have h1 : x ∈ List.filter (includeEntry cfg (dirPath ++ "/" ++ nm)) cs := by
            have h2 : x ∈ sortedChildren cfg (dirPath ++ "/" ++ nm) cs := hx
            simpa only [sortedChildren, mem_isortBy] using h2
          exact (List.mem_filter.mp h1).1
        have hlt := List.sizeOf_lt_of_mem hx'
        apply ih
        simp only [FSTree.dir.sizeOf_spec, Option.some.sizeOf_spec] at ht
        omega

/-- The string-returning renderer and the console/file renderer agree on
every directory listing (including the permission-denied case). -/
theorem capture_directory_contents_eq_print (cfg : Config) (dirPath pfx : String) :
    ∀ o : Option (List FSTree),
      capture_directory_contents cfg dirPath pfx o
        = print_directory_contents cfg dirPath pfx o := by
  intro o
  cases o with
  | none => simp [capture_directory_contents, print_directory_contents]
  | some items =>
    simp only [capture_directory_contents, print_directory_contents]
    exact capture_items_congr cfg dirPath pfx _
      (fun x _ isLast => capture_item_eq_print (sizeOf x) x (Nat.le_refl _) cfg dirPath pfx isLast)

/-! ### The claims -/

/-- Claim C1, counterexample to the claim as stated: the sort key
`(is_file, name.lower())` is not injective — the files `"A"` and `"a"`
share the key `(True, "a")` — and Python's stable sort then preserves
listing order, so re-ordering the underlying directory listing changes
the rendered child ordering. -/
theorem claim1_counterexample :
    ([FSTree.file "A" (.ok ""), FSTree.file "a" (.ok "")] : List FSTree).Perm
        [FSTree.file "a" (.ok ""), FSTree.file "A" (.ok "")]
    ∧ print_directory_contents defaultConfig "r" ""
        (some [FSTree.file "A" (.ok ""), FSTree.file "a" (.ok "")])
      ≠ print_directory_contents defaultConfig "r" ""
        (some [FSTree.file "a" (.ok ""), FSTree.file "A" (.ok "")]) := by
  constructor
  · exact List.Perm.swap _ _ _
  · simp +decide [print_directory_contents, print_items, print_item, sortedChildren,
      isortBy, insortBy, keyLE]

/-- Claim C1, amended: for every directory, the included children are
emitted in the total order "directories before files, then ascending
case-insensitive name" (`keyLE`), and — provided no two included
children share a sort key (kind together with case-insensitive name) —
the rendered ordering is invariant under any permutation of the
underlying directory listing. -/
theorem claim1_amended_order_invariance (cfg : Config) (dirPath pfx : String)
    (items items' : List FSTree) (hperm : items.Perm items')
    (hdist : (items.filter (includeEntry cfg dirPath)).Pairwise
      fun a b => sortKey a ≠ sortKey b) :
    (sortedChildren cfg dirPath items).Pairwise (fun a b => keyLE a b = true)
    ∧ sortedChildren cfg dirPath items = sortedChildren cfg dirPath items'
    ∧ print_directory_contents cfg dirPath pfx (some items)
        = print_directory_contents cfg dirPath pfx (some items') := by
  have h2 : sortedChildren cfg dirPath items = sortedChildren cfg dirPath items' :=
    isortBy_keyLE_eq_of_perm (hperm.filter _) hdist
  refine ⟨isortBy_pairwise keyLE_total keyLE_trans _, h2, ?_⟩
  simp only [print_directory_contents, h2]

/-- Witness for C1: a directory `B/` and a file `a.txt` have distinct
sort keys, so the two listing orders render identically. -/
theorem claim1_witness :
    print_directory_contents defaultConfig "r" ""
        (some [FSTree.dir "B" (some []), FSTree.file "a.txt" (.ok "")])
      = print_directory_contents defaultConfig "r" ""
        (some [FSTree.file "a.txt" (.ok ""), FSTree.dir "B" (some [])]) :=
  (claim1_amended_order_invariance defaultConfig "r" ""
    [FSTree.dir "B" (some []), FSTree.file "a.txt" (.ok "")]
    [FSTree.file "a.txt" (.ok ""), FSTree.dir "B" (some [])]
    (List.Perm.swap _ _ _)
    (by simp +decide [List.pairwise_cons, includeEntry])).2.2

/-- Claim C2: with the sorted included children written as
`init ++ [t]`, every child of `init` is emitted with the middle
connector and only `t` with the last connector; each child's block
starts with the line `<prefix><connector><name>` (directories get a
trailing `/`), a directory recurses with the prefix extended by four
spaces when last (else the continuation glyph), and a file contributes
no further lines. -/
theorem claim2_connector_structure (cfg : Config) (dirPath pfx : String)
    (items init : List FSTree) (t : FSTree)
    (h : sortedChildren cfg dirPath items = init ++ [t]) :
    print_directory_contents cfg dirPath pfx (some items)
      = init.flatMap (fun u => print_item cfg dirPath pfx u false)
          ++ print_item cfg dirPath pfx t true
    ∧ ∀ (u : FSTree) (isLast : Bool),
        print_item cfg dirPath pfx u isLast
          = (pfx ++ (if isLast then "└── " else "├── ") ++ u.name
              ++ (if u.isFile then "" else "/"))
            :: (match u with
                | .file _ _ => []
                | .dir nm lst =>
                  print_directory_contents cfg (dirPath ++ "/" ++ nm)
                    (pfx ++ (if isLast then "    " else "│   ")) lst) := by
  constructor
  · rw [show print_directory_contents cfg dirPath pfx (some items)
        = print_items cfg dirPath pfx (sortedChildren cfg dirPath items) from by
      simp [print_directory_contents]]
    rw [h]
    exact print_items_append_last cfg dirPath pfx init t
  · intro u isLast
    cases u with
    | file nm r => simp [print_item, FSTree.name, FSTree.isFile]
    | dir nm lst => simp [print_item, FSTree.name, FSTree.isFile]

/-- Witness for C2: a directory with the single included child `a`
renders it with the last connector. -/
theorem claim2_witness :
    print_directory_contents defaultConfig "r" "" (some [FSTree.file "a" (.ok "")])
      = ["└── a"] := by
  have h := (claim2_connector_structure defaultConfig "r" "" [FSTree.file "a" (.ok "")]
      [] (FSTree.file "a" (.ok "")) rfl).1
  rw [h]
  simp +decide [print_item]

/-- Claim C3, counterexample to the claim as stated: with the output
file active (`hasFile = true`), a missing root writes the "does not
exist" diagnostic to the console only — the file sink receives nothing
(folder_analyzer.py lines 18-20 call `print` without an
`output_file.write`). -/
theorem claim3_counterexample :
    (print_tree_structure defaultConfig "missing" RootState.missing "" true).file = []
    ∧ (print_tree_structure defaultConfig "missing" RootState.missing "" true).console
        = ["Error: The path 'missing' does not exist."] :=
  ⟨rfl, rfl⟩

/-- Claim C3, amended: a missing root yields exactly one "does not
exist" diagnostic line on the console and nothing in the output file
(even when the file sink is active), with no traversal; the string
variant returns the diagnostic as the sole line of its result; a root
that exists but is not a directory is handled analogously with the
"is not a directory" diagnostic. -/
theorem claim3_amended_diagnostics (cfg : Config) (target pfx : String) (hasFile : Bool) :
    print_tree_structure cfg target RootState.missing pfx hasFile
      = { console := ["Error: The path '" ++ target ++ "' does not exist."], file := [] }
    ∧ print_tree_structure cfg target RootState.notDir pfx hasFile
      = { console := ["Error: The path '" ++ target ++ "' is not a directory."], file := [] }
    ∧ get_folder_structure_as_string cfg target RootState.missing
      = ["Error: The path '" ++ target ++ "' does not exist."]
    ∧ get_folder_structure_as_string cfg target RootState.notDir
      = ["Error: The path '" ++ target ++ "' is not a directory."] :=
  ⟨rfl, rfl, rfl, rfl⟩

/-- Claim C4: a directory whose listing raises `PermissionError` yields
exactly the single line `<prefix>├── [Permission Denied]` at its
contents prefix and is not descended into; rendered as a child it
contributes exactly its own name line plus that diagnostic line; and
when it is not the last sibling, the remaining siblings render exactly
as they otherwise would. -/
theorem claim4_permission_denied_scoped (cfg : Config) (dirPath pfx name : String)
    (isLast : Bool) (l2 : List FSTree) (h : l2 ≠ []) :
    print_directory_contents cfg dirPath pfx none = [pfx ++ "├── [Permission Denied]"]
    ∧ print_item cfg dirPath pfx (FSTree.dir name none) isLast
        = [pfx ++ (if isLast then "└── " else "├── ") ++ name ++ "/",
           pfx ++ (if isLast then "    " else "│   ") ++ "├── [Permission Denied]"]
    ∧ print_items cfg dirPath pfx (FSTree.dir name none :: l2)
        = (pfx ++ "├── " ++ name ++ "/")
            :: (pfx ++ "│   " ++ "├── [Permission Denied]")
            :: print_items cfg dirPath pfx l2 := by
  refine ⟨?_, ?_, ?_⟩
  · simp [print_directory_contents]
  · cases isLast <;>
      simp [print_item, print_directory_contents, String.append_assoc]
  · cases l2 with
    | nil => exact absurd rfl h
    | cons y ys =>
      simp [print_items, print_item, print_directory_contents, String.append_assoc]

/-- Witness for C4: a permission-denied directory followed by a sibling
file. -/
theorem claim4_witness :
    print_items defaultConfig "r" "" [FSTree.dir "d" none, FSTree.file "z" (.ok "")]
      = ["├── d/", "│   ├── [Permission Denied]", "└── z"] := by
  have h := (claim4_permission_denied_scoped defaultConfig "r" "" "d" false
      [FSTree.file "z" (.ok "")] (List.cons_ne_nil _ _)).2.2
  rw [h]
  simp +decide [print_items, print_item]

/-- Claim C5: `should_include_file` excludes an entry exactly when (a)
its name starts with `.` and the hidden-files flag is off, or (b) the
cache flag is off and the name is `__pycache__`, or ends in `.pyc` or
`.pyo`, or the full path contains `__pycache__`; the checks are
independent (either disjunct alone excludes), and the default
configuration has both flags off.  The function is a pure function of
its arguments by construction. -/
theorem claim5_should_include_file_spec (cfg : Config) (full name : String) :
    (should_include_file cfg full name = false ↔
      ((strStarts name "." = true ∧ cfg.include_hidden_files = false)
        ∨ (cfg.include_pycache = false
            ∧ (name = "__pycache__" ∨ strEnds name ".pyc" = true
                ∨ strEnds name ".pyo" = true ∨ strContains full "__pycache__" = true))))
    ∧ defaultConfig.include_hidden_files = false
    ∧ defaultConfig.include_pycache = false := by
  refine ⟨?_, rfl, rfl⟩
  by_cases h1 : (strStarts name "." && !cfg.include_hidden_files) = true
  · rw [should_include_file, if_pos h1]
    simp only [Bool.and_eq_true, Bool.not_eq_true'] at h1
    exact iff_of_true rfl (Or.inl h1)
  · rw [should_include_file, if_neg h1]
    by_cases h2 : (!cfg.include_pycache &&
        (name == "__pycache__" || strEnds name ".pyc" || strEnds name ".pyo" ||
          strContains full "__pycache__")) = true
    · rw [if_pos h2]
      simp only [Bool.and_eq_true, Bool.or_eq_true, Bool.not_eq_true',
        beq_iff_eq] at h2
      refine iff_of_true rfl (Or.inr ⟨h2.1, ?_⟩)
      tauto
    · rw [if_neg h2]
      simp only [Bool.and_eq_true, Bool.or_eq_true, Bool.not_eq_true',
        beq_iff_eq, not_and, not_or] at h1 h2
      refine iff_of_false (by simp) ?_
      rintro (⟨hs, hh⟩ | ⟨hp, hc⟩)
      · exact absurd hh (h1 hs)
      · have := h2 hp
        tauto

/-- Claim C6: with an empty configured extension list
`should_include_file_contents` rejects every entry; with a non-empty
list it accepts exactly the entries whose lower-cased suffix (with its
leading dot) is in the list; directory entries yielded by the walk
never produce a content record; and with an empty extension list the
content section of `analyze_folder` is never emitted. -/
theorem claim6_contents_policy (cfg : Config) :
    (cfg.include_file_contents = [] →
      ∀ name, should_include_file_contents cfg name = false)
    ∧ (∀ name, cfg.include_file_contents ≠ [] →
        (should_include_file_contents cfg name = true
          ↔ strLower (pathSuffix name) ∈ cfg.include_file_contents))
    ∧ (∀ e : WalkEntry, e.kind = WalkKind.dirK → processEntry cfg e = [])
    ∧ (cfg.include_file_contents = [] →
        ∀ target items, analyzeFileContentsOutput cfg target items = "") := by
  refine ⟨?_, ?_, ?_, ?_⟩
  · intro h name
    simp [should_include_file_contents, h]
  · intro name h
    cases hcl : cfg.include_file_contents with
    | nil => exact absurd hcl h
    | cons e es =>
      rw [should_include_file_contents, hcl]
      simp [List.contains, List.elem_iff]
  · intro e hk
    simp [processEntry, hk]
  · intro h target items
    simp [analyzeFileContentsOutput, h]

/-- Witness for C6: the default configuration (empty extension list)
rejects contents for `a.py`. -/
theorem claim6_witness :
    should_include_file_contents defaultConfig "a.py" = false :=
  (claim6_contents_policy defaultConfig).1 rfl "a.py"

/-- Claim C7: the filter is deterministic (re-running it on the same
entry gives the same result); removing a disabled (filtered-out) entry
from a directory listing leaves the rendered output unchanged — the
entry never appears in the tree; and a disabled file contributes no
content record — removing it leaves the collected records unchanged. -/
theorem claim7_disabled_entries_excluded (cfg : Config) (dirPath pfx rel : String)
    (x : FSTree) (l1 l2 : List FSTree)
    (hx : should_include_file cfg (dirPath ++ "/" ++ x.name) x.name = false) :
    should_include_file cfg (dirPath ++ "/" ++ x.name) x.name
      = should_include_file cfg (dirPath ++ "/" ++ x.name) x.name
    ∧ print_directory_contents cfg dirPath pfx (some (l1 ++ x :: l2))
        = print_directory_contents cfg dirPath pfx (some (l1 ++ l2))
    ∧ (x.isFile = true →
        (collect_file_contents cfg (rglobList dirPath rel (l1 ++ x :: l2)) none).1
          = (collect_file_contents cfg (rglobList dirPath rel (l1 ++ l2)) none).1) := by
  have hincl : includeEntry cfg dirPath x = false := hx
  refine ⟨rfl, ?_, ?_⟩
  · have hs : sortedChildren cfg dirPath (l1 ++ x :: l2)
        = sortedChildren cfg dirPath (l1 ++ l2) := by
      simp only [sortedChildren, List.filter_append, List.filter_cons, hincl]
      simp
    simp only [print_directory_contents, hs]
  · intro hfile
    cases x with
    | dir nm lst => simp [FSTree.isFile] at hfile
    | file nm r =>
      simp only [FSTree.name] at hx
      simp only [collect_file_contents, rglobList_append, rglobList,
        List.flatMap_append, List.flatMap_cons, rglobEntries, processEntry, hx,
        Bool.false_and, if_neg]
      simp

/-- Witness for C7: the hidden file `.h` is filtered out, so removing
it leaves the rendered listing unchanged. -/
theorem claim7_witness :
    print_directory_contents defaultConfig "r" ""
        (some [FSTree.file ".h" (.ok ""), FSTree.file "a" (.ok "")])
      = print_directory_contents defaultConfig "r" "" (some [FSTree.file "a" (.ok "")]) := by
  have h := (claim7_disabled_entries_excluded defaultConfig "r" "" ""
      (FSTree.file ".h" (.ok "")) [] [FSTree.file "a" (.ok "")] (by decide)).2.1
  simpa using h

/-- Claim C8: a per-file read failure during content collection does
not abort the pass — the failing file is still recorded with the
placeholder naming the failure and collection continues with the
following entries; a collection-level iterator failure produces exactly
one warning and the records collected from the yielded entries are
still returned. -/
theorem claim8_per_file_failures_contained (cfg : Config) (pre post : List WalkEntry)
    (e : WalkEntry) (r : ReadResult) (msg iterE : String)
    (hk : e.kind = WalkKind.fileK r)
    (hfail : r = ReadResult.decodeErr msg ∨ r = ReadResult.permissionErr msg
      ∨ r = ReadResult.otherErr msg)
    (hinc : should_include_file cfg e.full e.name = true)
    (hc : should_include_file_contents cfg e.name = true) :
    (collect_file_contents cfg (pre ++ e :: post) none).1
      = (collect_file_contents cfg pre none).1
          ++ (e.rel, readOutput r) :: (collect_file_contents cfg post none).1
    ∧ ((r = ReadResult.decodeErr msg ∨ r = ReadResult.permissionErr msg) →
        readOutput r = "[Could not read file: " ++ msg ++ "]")
    ∧ (r = ReadResult.otherErr msg →
        readOutput r = "[Error reading file: " ++ msg ++ "]")
    ∧ (collect_file_contents cfg (pre ++ e :: post) (some iterE)).2
        = ["Warning: Error collecting file contents: " ++ iterE]
    ∧ (collect_file_contents cfg (pre ++ e :: post) (some iterE)).1
        = (collect_file_contents cfg (pre ++ e :: post) none).1 := by
  refine ⟨?_, ?_, ?_, rfl, rfl⟩
  · simp [collect_file_contents, List.flatMap_append, List.flatMap_cons,
      processEntry, hk, hinc, hc]
  · rintro (h | h) <;> subst h <;> rfl
  · intro h; subst h; rfl

/-- Witness for C8: a file whose read raises `UnicodeDecodeError` is
recorded with the placeholder and the following file is still
collected. -/
theorem claim8_witness :
    (collect_file_contents
        { include_hidden_files := false, include_pycache := false,
          include_file_contents := [".py"] }
        [⟨"r/b.py", "b.py", "b.py", WalkKind.fileK (ReadResult.decodeErr "bad")⟩,
         ⟨"r/c.py", "c.py", "c.py", WalkKind.fileK (ReadResult.ok "x")⟩] none).1
      = [("b.py", "[Could not read file: bad]"), ("c.py", "x")] := by
  have h := (claim8_per_file_failures_contained
      { include_hidden_files := false, include_pycache := false,
        include_file_contents := [".py"] }
      [] [⟨"r/c.py", "c.py", "c.py", WalkKind.fileK (ReadResult.ok "x")⟩]
      ⟨"r/b.py", "b.py", "b.py", WalkKind.fileK (ReadResult.decodeErr "bad")⟩
      (ReadResult.decodeErr "bad") "bad" "unused" rfl (Or.inl rfl)
      (by decide) (by decide)).1
  simp only [List.nil_append] at h
  rw [h]
  simp +decide [collect_file_contents, processEntry, readOutput]

/-- Claim C9, counterexample to the claim as stated: the string variant
does render `[Permission Denied]` lines
(`_capture_directory_contents`, folder_analyzer.py lines 213-215), so
its string result can contain one. -/
theorem claim9_counterexample :
    get_folder_structure_as_string defaultConfig "r"
        (RootState.dir "r" (some [FSTree.dir "sub" none]))
      = ["r/", "└── sub/", "    ├── [Permission Denied]"]
    ∧ "    ├── [Permission Denied]" ∈
        get_folder_structure_as_string defaultConfig "r"
          (RootState.dir "r" (some [FSTree.dir "sub" none])) := by
  constructor
  · simp +decide [get_folder_structure_as_string, capture_directory_contents,
      capture_items, capture_item, sortedChildren, isortBy, insortBy, keyLE]
  · simp +decide [get_folder_structure_as_string, capture_directory_contents,
      capture_items, capture_item, sortedChildren, isortBy, insortBy, keyLE]

/-- Claim C9, amended: the string-returning variant omits only the
content-embedding behaviour; its permission-denied handling is
identical to the file-writing variant — both renderers emit the same
lines for every listing, and for a directory root the string result is
exactly the tree section the file-writing variant writes (hence it
contains no embedded-contents section, which `analyze_folder` appends
to the output file only). -/
theorem claim9_amended_string_variant_parity (cfg : Config) (target name : String)
    (listing : Option (List FSTree)) :
    (∀ (dirPath pfx : String) (o : Option (List FSTree)),
      capture_directory_contents cfg dirPath pfx o
        = print_directory_contents cfg dirPath pfx o)
    ∧ get_folder_structure_as_string cfg target (RootState.dir name listing)
        = (print_tree_structure cfg target (RootState.dir name listing) "" true).file := by
  refine ⟨fun dirPath pfx o => capture_directory_contents_eq_print cfg dirPath pfx o, ?_⟩
  simp only [get_folder_structure_as_string, print_tree_structure]
  rw [capture_directory_contents_eq_print]
  rfl

/-- Claim C10: with the cache flag off, any entry whose full path
string contains `__pycache__` anywhere — including as a mere fragment
of a file name — is excluded by the filter. -/
theorem claim10_pycache_substring_excludes (cfg : Config) (full name : String)
    (hpyc : cfg.include_pycache = false)
    (hsub : strContains full "__pycache__" = true) :
    should_include_file cfg full name = false := by
  rw [should_include_file]
  split
  · rfl
  · split
    · rfl
    · rename_i h2
      simp [hpyc, hsub] at h2

/-- Witness for C10: the file name `a__pycache__b.txt` merely contains
`__pycache__` as a fragment, yet is excluded. -/
theorem claim10_witness :
    should_include_file defaultConfig "root/a__pycache__b.txt" "a__pycache__b.txt"
      = false :=
  claim10_pycache_substring_excludes defaultConfig "root/a__pycache__b.txt"
    "a__pycache__b.txt" rfl (by decide)
